import Mathlib

/-!
# Verification of the locksmith inspection engine

A shallow embedding, in Lean 4, of the core of the `locksmith` query oracle:

* the value objects of `src/crates/locksmith/src/objects.rs` (`Lock`, `TableObject`,
  `ColumnObject`, `IndexObject`, `DBObject`, `TableLock`),
* the statement texts issued by `Locker::lock_tables` (`src/crates/locksmith/src/locker.rs`),
* the blocked-statement detector `StatementExecutor::detect_if_statement_blocks` and
  `StatementExecutor::check_statement_for_locks` (`src/crates/locksmith/src/executor.rs`),
* the snapshot/diff computation of `Introspector::list_object_file_nodes`
  (`src/crates/locksmith/src/introspection.rs`), and
* the discovery loop of `QueryOracle::inspect_statement` (`src/crates/locksmith/src/oracle.rs`).

Interaction with the database server is abstracted as explicit environment parameters:
the executor's session is a finite trace of resolutions of the `tokio::select!` race,
and the oracle's per-iteration interaction with the server is a response function.
The discovery loop is modelled with explicit fuel because the source loop has no
built-in termination guarantee; a `running` outcome means the source loop would still
be iterating after that many iterations.
-/

namespace Locksmith

/-! ## Data model (`objects.rs`) -/

/-- `objects.rs`: `pub struct TableObject { pub name: String }`. -/
structure TableObject where
  name : String
  deriving DecidableEq, Repr

/-- `objects.rs`: `pub struct ColumnObject { table, name, data_type }`. -/
structure ColumnObject where
  table : TableObject
  name : String
  data_type : String
  deriving DecidableEq, Repr

/-- `objects.rs`: `pub struct IndexObject { table, name }`. -/
structure IndexObject where
  table : TableObject
  name : String
  deriving DecidableEq, Repr

/-- `objects.rs`: `pub enum DBObject { Table(..), Column(..), Index(..) }`. -/
inductive DBObject where
  | Table (table : TableObject)
  | Column (column : ColumnObject)
  | Index (index : IndexObject)
  deriving DecidableEq, Repr

/-- `objects.rs`: `pub enum Lock` — the eight recognized Postgres table lock modes,
plus the `Unknown(String)` escape hatch for unrecognized mode names. -/
inductive Lock where
  | AccessShareLock
  | RowShareLock
  | RowExclusiveLock
  | ShareUpdateExclusiveLock
  | ShareLock
  | ShareRowExclusiveLock
  | ExclusiveLock
  | AccessExclusiveLock
  | Unknown (value : String)
  deriving DecidableEq, Repr

/-- `objects.rs`: `pub struct TableLock { pub table: TableObject, pub lock: Lock }`. -/
structure TableLock where
  table : TableObject
  lock : Lock
  deriving DecidableEq, Repr

/-- The eight mode names recognized by `impl From<String> for Lock` in `objects.rs`,
in source order. -/
def recognizedLockNames : List String :=
  ["AccessShareLock", "RowShareLock", "RowExclusiveLock", "ShareUpdateExclusiveLock",
   "ShareLock", "ShareRowExclusiveLock", "ExclusiveLock", "AccessExclusiveLock"]

/-- `objects.rs`: `impl From<String> for Lock`. The Rust code matches `value.as_str()`
against the eight literal names with a `_ => Self::Unknown(value)` fallback; the match
on string literals is rendered as the equivalent chain of equality tests. -/
def Lock.fromString (value : String) : Lock :=
  if value = "AccessShareLock" then .AccessShareLock
  else if value = "RowShareLock" then .RowShareLock
  else if value = "RowExclusiveLock" then .RowExclusiveLock
  else if value = "ShareUpdateExclusiveLock" then .ShareUpdateExclusiveLock
  else if value = "ShareLock" then .ShareLock
  else if value = "ShareRowExclusiveLock" then .ShareRowExclusiveLock
  else if value = "ExclusiveLock" then .ExclusiveLock
  else if value = "AccessExclusiveLock" then .AccessExclusiveLock
  else .Unknown value

/-- Rust's `Debug` escaping for the characters commonly occurring in lock-mode text:
`"` and `\` are backslash-escaped, newline / carriage return / tab become `\n` / `\r`
/ `\t`, every other character is printed verbatim. (Only the `Unknown` branch of
`Lock`'s `Display` ever reaches this; the recognized variants carry no string.) -/
def rustDebugEscapeChar (c : Char) : List Char :=
  if c = '"' then ['\\', '"']
  else if c = '\\' then ['\\', '\\']
  else if c = '\n' then ['\\', 'n']
  else if c = '\r' then ['\\', 'r']
  else if c = '\t' then ['\\', 't']
  else [c]

/-- Rust's `Debug` rendering of a `String` value: the escaped text between quotes. -/
def rustDebugString (s : String) : String :=
  "\"" ++ String.mk (s.data.flatMap rustDebugEscapeChar) ++ "\""

/-- `objects.rs`: `impl Display for Lock` writes `{self:?}`, i.e. the derived `Debug`
form: the bare variant name for the eight unit variants, and `Unknown("…")` (with the
carried text `Debug`-escaped) for the escape hatch. -/
def Lock.toString : Lock → String
  | .AccessShareLock => "AccessShareLock"
  | .RowShareLock => "RowShareLock"
  | .RowExclusiveLock => "RowExclusiveLock"
  | .ShareUpdateExclusiveLock => "ShareUpdateExclusiveLock"
  | .ShareLock => "ShareLock"
  | .ShareRowExclusiveLock => "ShareRowExclusiveLock"
  | .ExclusiveLock => "ExclusiveLock"
  | .AccessExclusiveLock => "AccessExclusiveLock"
  | .Unknown value => "Unknown(" ++ rustDebugString value ++ ")"

/-! ## JSON serialization of `Lock` (C9)

`objects.rs` derives `serde::Serialize` for `Lock`. serde's default representation for
an enum is externally tagged: a unit variant (no payload) serializes as the plain JSON
string of its name, and a newtype variant serializes as a one-field object mapping the
variant name to the serialized payload. -/

/-- A minimal JSON value type, sufficient for the serialized forms appearing here. -/
inductive Json where
  | str (s : String)
  | obj (fields : List (String × Json))

/-- serde's externally tagged encoding of one enum variant: a unit variant (no
payload) becomes the plain string of its name; a variant with a payload becomes the
single-field object `{name: payload}`. -/
def serdeExternallyTagged (name : String) : Option Json → Json
  | none => .str name
  | some payload => .obj [(name, payload)]

/-- The serde variant name of a `Lock` value (the Rust identifier of the variant). -/
def Lock.variantName : Lock → String
  | .AccessShareLock => "AccessShareLock"
  | .RowShareLock => "RowShareLock"
  | .RowExclusiveLock => "RowExclusiveLock"
  | .ShareUpdateExclusiveLock => "ShareUpdateExclusiveLock"
  | .ShareLock => "ShareLock"
  | .ShareRowExclusiveLock => "ShareRowExclusiveLock"
  | .ExclusiveLock => "ExclusiveLock"
  | .AccessExclusiveLock => "AccessExclusiveLock"
  | .Unknown _ => "Unknown"

/-- The serialized payload of a `Lock` variant: the eight unit variants have none,
`Unknown(value)` carries the string `value`. -/
def Lock.variantPayload : Lock → Option Json
  | .Unknown value => some (.str value)
  | _ => none

/-- JSON serialization of a `Lock` value under serde's derived (externally tagged)
representation. -/
def Lock.toJson (l : Lock) : Json :=
  serdeExternallyTagged l.variantName l.variantPayload

/-! ## `Locker::lock_tables` statement texts (`locker.rs`, C8 / C10) -/

/-- `locker.rs` line 34: `format!("LOCK TABLE \"{}\" IN ACCESS EXCLUSIVE MODE;", table.name)`.
The table name is interpolated verbatim; no escaping is applied. -/
def lock_table_statement (name : String) : String :=
  "LOCK TABLE \"" ++ name ++ "\" IN ACCESS EXCLUSIVE MODE;"

/-- `Locker::lock_tables` executes one `LOCK TABLE` statement per table, in the order
of the iterator it is handed (`for table in tables`). The sequence of SQL texts it
issues is therefore the image of the enumeration order under `lock_table_statement`. -/
def lock_tables_statements (tables : List TableObject) : List String :=
  tables.map fun t => lock_table_statement t.name

/-- PostgreSQL's rule for quoting an identifier: wrap it in double quotes and double
every embedded double-quote character. This is a specification-side comparison
definition (the escaping the generated SQL would need in order to preserve an
arbitrary name as a single quoted identifier); the source performs no such escaping. -/
def pgEscapeQuotes : List Char → List Char
  | [] => []
  | c :: cs => if c = '"' then '"' :: '"' :: pgEscapeQuotes cs else c :: pgEscapeQuotes cs

/-- A name rendered as a correctly quoted PostgreSQL identifier (see `pgEscapeQuotes`). -/
def pgQuotedIdent (name : String) : String :=
  "\"" ++ String.mk (pgEscapeQuotes name.data) ++ "\""

/-! ## Errors

The error values the embedded code can produce, one constructor per `bail!` /
`context` site reached by the modelled code paths. The source defines no
`oracle_stuck` (or similar) error anywhere: the constructors below are exactly the
failure exits of the modelled functions. -/

/-- The failure exits of the modelled code paths (`executor.rs`, `locker.rs`,
`oracle.rs`). `sessionClosed` is the `bail!("Connection unexpectedly finished: …")`
raised when a session's background message pump terminates early. -/
inductive OracleError where
  | executeFailed (e : String)
  | readMessageFailed (e : String)
  | sessionClosed (context : String)
  | createLocker (e : String)
  | lockAcquire (e : String)
  | createExecutor (e : String)
  | listLocks (e : String)
  deriving DecidableEq, Repr

/-! ## Executor (`executor.rs`) -/

/-- `tokio_postgres::AsyncMessage`: an asynchronous server message, either a notice
(carrying its message text, `msg.message()`) or some other message (notifications). -/
inductive AsyncMessage where
  | notice (message : String)
  | notification
  deriving DecidableEq, Repr

deriving instance DecidableEq for Except

/-- One resolution of the `tokio::select!` race inside `detect_if_statement_blocks`:
either the statement's execute future resolved (with its result), or
`connection.poll_message` resolved (with `None` meaning the message pump finished,
`Some` an inbound message or a read error). -/
inductive SelectOutcome where
  | executed (res : Except String Unit)
  | message (msg : Option (Except String AsyncMessage))
  deriving DecidableEq, Repr

/-- Substring containment on strings; models Rust's `str::contains(&str)`. -/
def containsSubstr (s pat : String) : Bool :=
  decide (pat.data <:+: s.data)

/-- The substring `detect_if_statement_blocks` looks for in notice texts
(`executor.rs` line 133). -/
def stillWaitingText : String := "still waiting for"

/-- Is this asynchronous message a lock-wait notice, i.e. a `Notice` whose message
text contains `"still waiting for"`? All other messages are ignored by the detector. -/
def isLockWaitNotice : AsyncMessage → Bool
  | .notice message => containsSubstr message stillWaitingText
  | .notification => false

/-- `StatementExecutor::detect_if_statement_blocks` (`executor.rs` lines 108–144).

The session is abstracted as the finite sequence of `tokio::select!` resolutions the
loop consumes (the driven SQL text determines the server's behavior and hence this
trace). Exits, in source order within each iteration:
* execute future resolved `Ok` ⇒ `Ok(false)`;
* execute future resolved `Err` ⇒ error (`context("Failed to execute statement")`);
* `poll_message` yielded `None` ⇒ `bail!` with the session-closed message;
* `poll_message` yielded a read error ⇒ error (`context("Reading message from server")`);
* a notice containing `"still waiting for"` ⇒ `Ok(true)`;
* any other message ⇒ next loop iteration.

`none` means the loop has consumed the whole trace without an exit, i.e. the source
loop would still be polling. -/
def detect_if_statement_blocks : List SelectOutcome → Option (Except OracleError Bool)
  | [] => none
  | .executed (.ok ()) :: _ => some (.ok false)
  | .executed (.error e) :: _ => some (.error (.executeFailed e))
  | .message none :: _ => some (.error (.sessionClosed "executing statement"))
  | .message (some (.error e)) :: _ => some (.error (.readMessageFailed e))
  | .message (some (.ok m)) :: rest =>
    if isLockWaitNotice m then some (.ok true)
    else detect_if_statement_blocks rest

/-- The literal commit statement driven by `check_statement_for_locks`
(`executor.rs` line 82). -/
def commitStatement : String := "COMMIT;"

/-- The `for to_execute in [statement, "COMMIT;"]` loop of
`check_statement_for_locks`: drive each statement in turn through
`detect_if_statement_blocks`, returning `true` at the first one that blocks and
`false` only after all of them complete. `pump i s` is the select-resolution trace
the session produces for the `i`-th driven statement `s`. -/
def checkLoop (pump : Nat → String → List SelectOutcome) :
    Nat → List String → Option (Except OracleError Bool)
  | _, [] => some (.ok false)
  | i, toExecute :: rest =>
    match detect_if_statement_blocks (pump i toExecute) with
    | none => none
    | some (.error e) => some (.error e)
    | some (.ok true) => some (.ok true)
    | some (.ok false) => checkLoop pump (i + 1) rest

/-- `StatementExecutor::check_statement_for_locks` (`executor.rs` lines 81–90):
drive the candidate statement, then an explicit `COMMIT;`, through
`detect_if_statement_blocks`. -/
def check_statement_for_locks (pump : Nat → String → List SelectOutcome)
    (statement : String) : Option (Except OracleError Bool) :=
  checkLoop pump 0 [statement, commitStatement]

/-! ## Introspector file-node snapshots (`introspection.rs`) -/

/-- `Introspector::list_object_file_nodes` (`introspection.rs` lines 41–60) turns each
catalog row `(table_name, file_node)` into the map entry
`(DBObject::Table(TableObject { name }), file_node)`. The resulting map is modelled as
the association list of those entries; the catalog query yields one row per table, so
the keys are distinct (stated as a hypothesis where needed). -/
def fileNodeMap (rows : List (String × Int)) : List (DBObject × Int) :=
  rows.map fun r => (DBObject.Table ⟨r.1⟩, r.2)

/-- `HashMap::get` on the modelled map: the value of the first entry with the given
key, if any. -/
def mapGet (m : List (DBObject × Int)) (k : DBObject) : Option Int :=
  (m.find? fun p => decide (p.1 = k)).map Prod.snd

/-! ## Oracle (`oracle.rs`) -/

/-- `oracle.rs`: `pub struct InspectedStatement` — the four result sets. The Rust
`HashSet`s are modelled as `Finset`s (equality is by membership, matching the derived
`PartialEq` of `HashSet`). -/
structure InspectedStatement where
  added_objects : Finset DBObject
  removed_objects : Finset DBObject
  locks : Finset TableLock
  rewrites : Finset DBObject
  deriving DecidableEq

/-- The environment's response to one iteration of the discovery loop, abstracting
steps b–e of the iteration (`oracle.rs` lines 139–172): creating the locker and
executor and locking `to_lock` may fail (`fail`), otherwise
`check_statement_for_locks` reports not blocked (`notBlocked`) or blocked, in which
case `list_connection_locks` returns a row list or fails (`blocked`). -/
inductive IterResp where
  | fail (e : OracleError)
  | notBlocked
  | blocked (locks : Except String (List TableLock))

/-- Outcome of running the discovery loop for a given amount of fuel: the loop broke
out with the accumulated lock set (`done`), an error was propagated (`failed`), or the
loop is still iterating after consuming all fuel (`running`, carrying the lock set
accumulated so far). The source loop (`oracle.rs` lines 133–173) has no built-in
bound, so the embedding makes the iteration count explicit. -/
inductive LoopOutcome where
  | done (locks : Finset TableLock)
  | failed (e : OracleError)
  | running (locks : Finset TableLock)
  deriving DecidableEq

/-- Is the loop still iterating? -/
def LoopOutcome.isRunning : LoopOutcome → Bool
  | .running _ => true
  | _ => false

/-- `oracle.rs` line 135: the set of tables already observed in a detected lock,
`all_detected_locks.iter().map(|t| &t.table)`. -/
def knownLockedTables (locks : Finset TableLock) : Finset TableObject :=
  locks.image TableLock.table

/-- The discovery loop of `QueryOracle::inspect_statement` (`oracle.rs` lines
133–173). Per iteration `i`, with `acc` the `all_detected_locks` accumulated so far:
compute `to_lock = all_tables \ known_locked_tables`, consult the environment
(`env i to_lock`), and then

* on `fail e`, propagate the error (`?` in the source);
* on `notBlocked`, break out of the loop with `acc` (`if !is_blocked { break }`);
* on `blocked (error e)`, propagate the `list_connection_locks` error;
* on `blocked (ok new_locks)`, extend the accumulator
  (`all_detected_locks.extend(new_locks)`) and continue.

Note the source performs no check on `new_locks`: an empty or already-known row list
is extended into `acc` unchanged and the loop simply continues. -/
def discoveryLoop (env : Nat → Finset TableObject → IterResp)
    (all_tables : Finset TableObject) :
    Nat → Nat → Finset TableLock → LoopOutcome
  | 0, _, acc => .running acc
  | fuel + 1, i, acc =>
    let toLock := all_tables \ knownLockedTables acc
    match env i toLock with
    | .fail e => .failed e
    | .notBlocked => .done acc
    | .blocked (.error e) => .failed (.listLocks e)
    | .blocked (.ok newLocks) =>
      discoveryLoop env all_tables fuel (i + 1) (acc ∪ newLocks.toFinset)

/-- The table payload of a `DBObject`, when it is a `Table` variant. -/
def DBObject.asTable : DBObject → Option TableObject
  | .Table t => some t
  | _ => none

/-- `oracle.rs` lines 123–129: `all_tables`, the `TableObject`s among the initial
objects (`filter_map` keeping the `Table` variants). -/
def allTablesOf (objs : Finset DBObject) : Finset TableObject :=
  objs.filterMap DBObject.asTable (by
    intro a a' b hb hb'
    cases a <;> cases a' <;> simp_all [DBObject.asTable])

/-- `oracle.rs` lines 192–198: the rewrite set. Iterate the entries of the new
file-node map; a table is rewritten when the initial map also has an entry for it and
the two file nodes differ. Collected into a set (`collect::<HashSet<_>>()`). -/
def rewritesOf (initialMap newMap : List (DBObject × Int)) : Finset DBObject :=
  (newMap.filterMap fun p =>
    match mapGet initialMap p.1 with
    | some initialNode => if initialNode ≠ p.2 then some p.1 else none
    | none => none).toFinset

/-- The snapshots the two `Introspector` calls produce around the discovery loop:
the initial `list_objects` / `list_object_file_nodes` results and the post-statement
ones. These are inputs of the embedding (the server's catalog contents). -/
structure SnapshotEnv where
  initialObjects : Finset DBObject
  initialFileNodeRows : List (String × Int)
  newObjects : Finset DBObject
  newFileNodeRows : List (String × Int)

/-- Outcome of `inspect_statement`: a result, a propagated error, or the discovery
loop still iterating after the given fuel. -/
inductive InspectOutcome where
  | ok (result : InspectedStatement)
  | err (e : OracleError)
  | running
  deriving DecidableEq

/-- `QueryOracle::inspect_statement` (`oracle.rs` lines 103–206): snapshot the initial
objects and file nodes, derive `all_tables`, run the discovery loop from an empty
lock set, then snapshot again and compute

* `added_objects = new_objects \ initial_objects`,
* `removed_objects = initial_objects \ new_objects`,
* `rewrites` from the two file-node maps (`rewritesOf`),

returning the `InspectedStatement` with the accumulated lock set. -/
def inspect_statement (snap : SnapshotEnv) (env : Nat → Finset TableObject → IterResp)
    (fuel : Nat) : InspectOutcome :=
  let all_tables := allTablesOf snap.initialObjects
  match discoveryLoop env all_tables fuel 0 ∅ with
  | .failed e => .err e
  | .running _ => .running
  | .done locks =>
    let added_objects := snap.newObjects \ snap.initialObjects
    let removed_objects := snap.initialObjects \ snap.newObjects
    let rewrites :=
      rewritesOf (fileNodeMap snap.initialFileNodeRows) (fileNodeMap snap.newFileNodeRows)
    .ok { added_objects, removed_objects, locks, rewrites }

/-! ## Concrete environments and snapshots used by witnesses and counterexamples -/

/-- An environment in which every iteration reports the statement blocked and
`list_connection_locks` returns no rows at all. -/
def envBlockedNoLocks : Nat → Finset TableObject → IterResp := fun _ _ => .blocked (.ok [])

/-- An environment in which the statement is never blocked. -/
def envNeverBlocked : Nat → Finset TableObject → IterResp := fun _ _ => .notBlocked

/-- An environment in which the statement blocks on the `customers` table exactly
while `customers` is among the tables being locked, reporting an
`AccessExclusiveLock` on it, and completes otherwise. -/
def envBlockOnCustomers : Nat → Finset TableObject → IterResp := fun _ toLock =>
  if (⟨"customers"⟩ : TableObject) ∈ toLock then
    .blocked (.ok [⟨⟨"customers"⟩, .AccessExclusiveLock⟩])
  else .notBlocked

/-- A one-table schema. -/
def customersOnly : Finset TableObject := {⟨"customers"⟩}

/-- A snapshot pair in which the statement dropped `old_table` and created
`new_table`. -/
def snapAddRemove : SnapshotEnv where
  initialObjects := {DBObject.Table ⟨"old_table"⟩}
  initialFileNodeRows := [("old_table", 11)]
  newObjects := {DBObject.Table ⟨"new_table"⟩}
  newFileNodeRows := [("new_table", 12)]

/-- A snapshot pair in which `customers` was rewritten (its file node changed from
101 to 555) while `orders` kept file node 202. -/
def snapRewrite : SnapshotEnv where
  initialObjects := {DBObject.Table ⟨"customers"⟩, DBObject.Table ⟨"orders"⟩}
  initialFileNodeRows := [("customers", 101), ("orders", 202)]
  newObjects := {DBObject.Table ⟨"customers"⟩, DBObject.Table ⟨"orders"⟩}
  newFileNodeRows := [("customers", 555), ("orders", 202)]

/-- A snapshot pair for the unchanged one-table schema. -/
def snapCustomers : SnapshotEnv where
  initialObjects := {DBObject.Table ⟨"customers"⟩}
  initialFileNodeRows := [("customers", 7)]
  newObjects := {DBObject.Table ⟨"customers"⟩}
  newFileNodeRows := [("customers", 7)]

/-! ## Helper lemmas -/

/-- Escaping embedded quotes lengthens a character list by exactly the number of
quote characters it contains. -/
theorem pgEscapeQuotes_length (l : List Char) :
    (pgEscapeQuotes l).length = l.length + l.count '"' := by
  induction l with
  | nil => rfl
  | cons c cs ih =>
    by_cases hc : c = '"'
    · subst hc
      simp [pgEscapeQuotes, ih, List.count_cons]
      omega
    · simp [pgEscapeQuotes, hc, ih, List.count_cons, Ne.symm hc]
      omega

/-- `lock_table_statement` embeds the name injectively (at the level of raw strings). -/
theorem lock_table_statement_injective : Function.Injective lock_table_statement := by
  intro n₁ n₂ h
  unfold lock_table_statement at h
  have hd := congrArg String.data h
  simp only [String.data_append] at hd
  exact String.ext (List.append_cancel_left (List.append_cancel_right hd))

/-! ## Claims -/

/-- C7: Lock-mode parsing round-trips for every named mode: for each of the eight
recognized mode names, parsing the name yields the corresponding non-`Unknown`
`Lock` variant and converting that variant back to a string yields the original
name; and for every string that is not one of the eight names, parsing yields
`Unknown` carrying that exact string. -/
theorem lock_mode_parse_roundtrip :
    (Lock.fromString "AccessShareLock" = .AccessShareLock ∧
     Lock.fromString "RowShareLock" = .RowShareLock ∧
     Lock.fromString "RowExclusiveLock" = .RowExclusiveLock ∧
     Lock.fromString "ShareUpdateExclusiveLock" = .ShareUpdateExclusiveLock ∧
     Lock.fromString "ShareLock" = .ShareLock ∧
     Lock.fromString "ShareRowExclusiveLock" = .ShareRowExclusiveLock ∧
     Lock.fromString "ExclusiveLock" = .ExclusiveLock ∧
     Lock.fromString "AccessExclusiveLock" = .AccessExclusiveLock) ∧
    (∀ name ∈ recognizedLockNames, Lock.toString (Lock.fromString name) = name) ∧
    (∀ s : String, s ∉ recognizedLockNames → Lock.fromString s = .Unknown s) := by
  refine ⟨by decide, by decide, ?_⟩
  intro s hs
  simp only [recognizedLockNames, List.mem_cons, List.not_mem_nil, or_false, not_or] at hs
  obtain ⟨h1, h2, h3, h4, h5, h6, h7, h8⟩ := hs
  simp [Lock.fromString, h1, h2, h3, h4, h5, h6, h7, h8]

/-- C7 witness: a string outside the eight recognized names parses to `Unknown`
carrying that exact string, and a recognized name round-trips. -/
theorem lock_mode_parse_roundtrip_witness :
    Lock.fromString "SomeFutureLock" = .Unknown "SomeFutureLock" ∧
    Lock.toString (Lock.fromString "ShareLock") = "ShareLock" :=
  ⟨lock_mode_parse_roundtrip.2.2 "SomeFutureLock" (by decide),
   lock_mode_parse_roundtrip.2.1 "ShareLock" (by decide)⟩

/-- C9: JSON serialization of a `Lock` value produces the canonical mode name as a
plain string for each of the eight recognized variants, and produces the externally
tagged object `{"Unknown": text}` for the `Unknown` variant, with the carried text
unchanged. -/
theorem lock_json_canonical :
    Lock.toJson .AccessShareLock = .str "AccessShareLock" ∧
    Lock.toJson .RowShareLock = .str "RowShareLock" ∧
    Lock.toJson .RowExclusiveLock = .str "RowExclusiveLock" ∧
    Lock.toJson .ShareUpdateExclusiveLock = .str "ShareUpdateExclusiveLock" ∧
    Lock.toJson .ShareLock = .str "ShareLock" ∧
    Lock.toJson .ShareRowExclusiveLock = .str "ShareRowExclusiveLock" ∧
    Lock.toJson .ExclusiveLock = .str "ExclusiveLock" ∧
    Lock.toJson .AccessExclusiveLock = .str "AccessExclusiveLock" ∧
    ∀ s : String, Lock.toJson (.Unknown s) = .obj [("Unknown", .str s)] :=
  ⟨rfl, rfl, rfl, rfl, rfl, rfl, rfl, rfl, fun _ => rfl⟩

/-- C10: for every table name `n`, `Locker::lock_tables` constructs the SQL text
exactly as the concatenation `LOCK TABLE "` + `n` + `" IN ACCESS EXCLUSIVE MODE;`,
embedding `n` verbatim with no escaping; in particular, for any name containing a
double-quote character the generated statement differs from the one that would
preserve the name as a single (correctly escaped) quoted identifier. -/
theorem lock_statement_verbatim_no_escaping :
    (∀ name : String,
      lock_table_statement name = "LOCK TABLE \"" ++ name ++ "\" IN ACCESS EXCLUSIVE MODE;") ∧
    (∀ name : String, '"' ∈ name.data →
      lock_table_statement name ≠ "LOCK TABLE " ++ pgQuotedIdent name ++ " IN ACCESS EXCLUSIVE MODE;") := by
  refine ⟨fun name => rfl, ?_⟩
  intro name hq h
  have hlen := congrArg String.length h
  simp only [lock_table_statement, pgQuotedIdent, String.length_append] at hlen
  have hmk : (String.mk (pgEscapeQuotes name.data)).length =
      name.data.length + name.data.count '"' := pgEscapeQuotes_length name.data
  rw [hmk] at hlen
  have hname : name.length = name.data.length := rfl
  have hcount : name.data.count '"' ≠ 0 := by
    simpa [List.count_eq_zero] using hq
  rw [hname] at hlen
  have h12 : ("LOCK TABLE \"" : String).length = 12 := by decide
  have h11 : ("LOCK TABLE " : String).length = 11 := by decide
  have hq1 : ("\"" : String).length = 1 := by decide
  have hs28 : ("\" IN ACCESS EXCLUSIVE MODE;" : String).length = 27 := by decide
  have hs27 : (" IN ACCESS EXCLUSIVE MODE;" : String).length = 26 := by decide
  rw [h12, h11, hq1, hs28, hs27] at hlen
  omega

/-- C10 witness: a name containing a double quote is embedded verbatim, and the
generated statement is not the correctly quoted form of that name. -/
theorem lock_statement_verbatim_no_escaping_witness :
    lock_table_statement "cust\"omers" =
      "LOCK TABLE \"" ++ "cust\"omers" ++ "\" IN ACCESS EXCLUSIVE MODE;" ∧
    lock_table_statement "cust\"omers" ≠
      "LOCK TABLE " ++ pgQuotedIdent "cust\"omers" ++ " IN ACCESS EXCLUSIVE MODE;" :=
  ⟨lock_statement_verbatim_no_escaping.1 "cust\"omers",
   lock_statement_verbatim_no_escaping.2 "cust\"omers" (by decide)⟩

/-- C8 counterexample: the lock statements `Locker::lock_tables` issues are not a
function of the table *set*: two enumerations of the same two-element set produce
different statement sequences. (The set iterated in `oracle.rs` lines 134–143 is a
`HashSet`, whose enumeration order the code does not canonicalize.) -/
theorem lock_order_set_counterexample :
    ([⟨"customers"⟩, ⟨"orders"⟩] : List TableObject).toFinset =
      ([⟨"orders"⟩, ⟨"customers"⟩] : List TableObject).toFinset ∧
    lock_tables_statements [⟨"customers"⟩, ⟨"orders"⟩] ≠
      lock_tables_statements [⟨"orders"⟩, ⟨"customers"⟩] := by
  constructor
  · decide
  · decide

/-- C8 (amended): the sequence of `LOCK TABLE` statements issued by
`Locker::lock_tables` is deterministic given the enumeration order of the tables —
two calls issue the same sequence exactly when they are handed the same
enumeration. The code fixes no canonical order for the underlying set, so per-set
(cross-run) determinism is not guaranteed by the code itself. -/
theorem lock_order_determined_by_enumeration :
    ∀ ts₁ ts₂ : List TableObject,
      lock_tables_statements ts₁ = lock_tables_statements ts₂ ↔ ts₁ = ts₂ := by
  intro ts₁ ts₂
  constructor
  · intro h
    refine List.map_injective_iff.mpr ?_ h
    intro t₁ t₂ ht
    have := lock_table_statement_injective ht
    cases t₁
    cases t₂
    simpa using this
  · intro h
    rw [h]

/-- C8 (amended) witness: the equivalence at a concrete enumeration. -/
theorem lock_order_determined_by_enumeration_witness :
    lock_tables_statements [(⟨"customers"⟩ : TableObject)] =
        lock_tables_statements [⟨"customers"⟩] ↔
      ([(⟨"customers"⟩ : TableObject)] = [⟨"customers"⟩]) :=
  lock_order_determined_by_enumeration [⟨"customers"⟩] [⟨"customers"⟩]

/-- C5: `detect_if_statement_blocks` returns `true` exactly when an asynchronous
`Notice` whose text contains `"still waiting for"` arrives before the statement
completes — all other asynchronous messages are ignored (skipping them does not
change the result); if the statement completes first it returns `false`; and if the
background message pump terminates before either event it fails with the
session-closed error. The final conjunct is the "only if" direction: a `true` result
means the consumed trace consists of ignored messages followed by a matching
notice. -/
theorem detect_blocks_behavior :
    (∀ (m : AsyncMessage) (tr : List SelectOutcome), isLockWaitNotice m = false →
        detect_if_statement_blocks (.message (some (.ok m)) :: tr) =
          detect_if_statement_blocks tr) ∧
    (∀ tr : List SelectOutcome,
        detect_if_statement_blocks (.executed (.ok ()) :: tr) = some (.ok false)) ∧
    (∀ (s : String) (tr : List SelectOutcome), containsSubstr s stillWaitingText = true →
        detect_if_statement_blocks (.message (some (.ok (.notice s))) :: tr) =
          some (.ok true)) ∧
    (∀ tr : List SelectOutcome,
        detect_if_statement_blocks (.message none :: tr) =
          some (.error (.sessionClosed "executing statement"))) ∧
    (∀ tr : List SelectOutcome, detect_if_statement_blocks tr = some (.ok true) →
        ∃ i s, tr.get? i = some (.message (some (.ok (.notice s)))) ∧
          containsSubstr s stillWaitingText = true ∧
          ∀ j < i, ∃ m, tr.get? j = some (.message (some (.ok m))) ∧
            isLockWaitNotice m = false) := by
  refine ⟨?_, fun tr => rfl, ?_, fun tr => rfl, ?_⟩
  · intro m tr h
    simp [detect_if_statement_blocks, h]
  · intro s tr h
    simp [detect_if_statement_blocks, isLockWaitNotice, h]
  · intro tr
    induction tr with
    | nil => intro h; simp [detect_if_statement_blocks] at h
    | cons x rest ih =>
      intro h
      cases x with
      | executed res =>
        cases res with
        | ok u => cases u; simp [detect_if_statement_blocks] at h
        | error e => simp [detect_if_statement_blocks] at h
      | message msg =>
        cases msg with
        | none => simp [detect_if_statement_blocks] at h
        | some r =>
          cases r with
          | error e => simp [detect_if_statement_blocks] at h
          | ok m =>
            by_cases hm : isLockWaitNotice m = true
            · cases m with
              | notification => simp [isLockWaitNotice] at hm
              | notice s =>
                refine ⟨0, s, rfl, ?_, ?_⟩
                · simpa [isLockWaitNotice] using hm
                · intro j hj
                  exact absurd hj (Nat.not_lt_zero j)
            · rw [Bool.not_eq_true] at hm
              have h' : detect_if_statement_blocks rest = some (.ok true) := by
                simpa [detect_if_statement_blocks, hm] using h
              obtain ⟨i, s, h1, h2, h3⟩ := ih h'
              refine ⟨i + 1, s, h1, h2, ?_⟩
              intro j hj
              cases j with
              | zero => exact ⟨m, rfl, hm⟩
              | succ j' =>
                exact h3 j' (Nat.lt_of_succ_lt_succ hj)

/-- C5 witness: a matching notice yields `true`; a non-matching notice is skipped;
a terminated pump yields the session-closed error. -/
theorem detect_blocks_behavior_witness :
    detect_if_statement_blocks
        [.message (some (.ok (.notice "still waiting for ShareLock")))] = some (.ok true) ∧
    detect_if_statement_blocks
        [.message (some (.ok .notification)), .executed (.ok ())] = some (.ok false) ∧
    detect_if_statement_blocks [.message none] =
      some (.error (.sessionClosed "executing statement")) :=
  ⟨detect_blocks_behavior.2.2.1 "still waiting for ShareLock" [] (by decide),
   by rw [detect_blocks_behavior.1 .notification [.executed (.ok ())] rfl]
      exact detect_blocks_behavior.2.1 [],
   detect_blocks_behavior.2.2.2.1 []⟩

/-- C4: `check_statement_for_locks` drives the candidate statement first (call 0)
and then an explicit `COMMIT;` (call 1) through `detect_if_statement_blocks`: it
returns `true` as soon as the first of the two reports blocked — in that case the
result does not depend on the session's behavior for the commit — and returns
`false` only if both complete without blocking (final conjunct: a `false` result
implies both calls reported unblocked). -/
theorem check_statement_first_blocking_wins :
    ∀ (pump : Nat → String → List SelectOutcome) (statement : String),
      (detect_if_statement_blocks (pump 0 statement) = some (.ok true) →
        check_statement_for_locks pump statement = some (.ok true)) ∧
      (detect_if_statement_blocks (pump 0 statement) = some (.ok false) →
       detect_if_statement_blocks (pump 1 commitStatement) = some (.ok true) →
        check_statement_for_locks pump statement = some (.ok true)) ∧
      (detect_if_statement_blocks (pump 0 statement) = some (.ok false) →
       detect_if_statement_blocks (pump 1 commitStatement) = some (.ok false) →
        check_statement_for_locks pump statement = some (.ok false)) ∧
      (check_statement_for_locks pump statement = some (.ok false) →
        detect_if_statement_blocks (pump 0 statement) = some (.ok false) ∧
        detect_if_statement_blocks (pump 1 commitStatement) = some (.ok false)) := by
  intro pump statement
  refine ⟨?_, ?_, ?_, ?_⟩
  · intro h0
    simp [check_statement_for_locks, checkLoop, h0]
  · intro h0 h1
    simp [check_statement_for_locks, checkLoop, h0, h1]
  · intro h0 h1
    simp [check_statement_for_locks, checkLoop, h0, h1]
  · intro h
    simp only [check_statement_for_locks] at h
    cases h0 : detect_if_statement_blocks (pump 0 statement) with
    | none => simp [checkLoop, h0] at h
    | some r0 =>
      cases r0 with
      | error e => simp [checkLoop, h0] at h
      | ok b0 =>
        cases b0 with
        | true => simp [checkLoop, h0] at h
        | false =>
          refine ⟨rfl, ?_⟩
          cases h1 : detect_if_statement_blocks (pump 1 commitStatement) with
          | none => simp [checkLoop, h0, h1] at h
          | some r1 =>
            cases r1 with
            | error e => simp [checkLoop, h0, h1] at h
            | ok b1 =>
              cases b1 with
              | true => simp [checkLoop, h0, h1] at h
              | false => rfl

/-- C4 witness: with a session whose trace for every driven statement is an
immediate lock-wait notice, the candidate statement blocks and
`check_statement_for_locks` reports `true` at once. -/
theorem check_statement_first_blocking_wins_witness :
    detect_if_statement_blocks
        ((fun _ _ => [SelectOutcome.message (some (.ok (.notice "still waiting for ShareLock")))])
          0 "drop table orders;") = some (.ok true) ∧
    check_statement_for_locks
        (fun _ _ => [SelectOutcome.message (some (.ok (.notice "still waiting for ShareLock")))])
        "drop table orders;" = some (.ok true) := by
  have hd : detect_if_statement_blocks
      [SelectOutcome.message (some (.ok (.notice "still waiting for ShareLock")))] =
      some (.ok true) := by decide
  exact ⟨hd,
    (check_statement_first_blocking_wins
      (fun _ _ => [SelectOutcome.message (some (.ok (.notice "still waiting for ShareLock")))])
      "drop table orders;").1 hd⟩

/-- `mapGet` on a cons cell: the head entry wins when its key matches. -/
theorem mapGet_cons (k' : DBObject) (v' : Int) (m : List (DBObject × Int)) (k : DBObject) :
    mapGet ((k', v') :: m) k = if k' = k then some v' else mapGet m k := by
  by_cases h : k' = k
  · simp [mapGet, List.find?, h]
  · simp [mapGet, List.find?, h]

/-- On an association list with distinct keys, membership of a pair is the same as
`mapGet` returning its value. -/
theorem mapGet_mem_iff {m : List (DBObject × Int)} (hnd : (m.map Prod.fst).Nodup)
    {k : DBObject} {v : Int} : (k, v) ∈ m ↔ mapGet m k = some v := by
  induction m with
  | nil => simp [mapGet]
  | cons p m' ih =>
    obtain ⟨k', v'⟩ := p
    simp only [List.map_cons, List.nodup_cons] at hnd
    obtain ⟨hknotin, hnd'⟩ := hnd
    rw [mapGet_cons]
    by_cases hk : k' = k
    · subst hk
      rw [if_pos rfl]
      constructor
      · intro hmem
        rcases List.mem_cons.mp hmem with heq | hmem'
        · rw [Prod.mk.injEq] at heq
          rw [heq.2]
        · exact absurd (List.mem_map.mpr ⟨(k', v), hmem', rfl⟩) hknotin
      · intro hv
        injection hv with hv'
        rw [← hv']
        exact List.mem_cons_self _ _
    · rw [if_neg hk]
      rw [← ih hnd']
      simp [List.mem_cons, Prod.mk.injEq, hk, Ne.symm hk]

/-- Membership characterization of the rewrite set: when the new map's keys are
distinct, `d` is reported as rewritten exactly when both maps have an entry for `d`
and the two file nodes differ. -/
theorem mem_rewritesOf {im nm : List (DBObject × Int)} (hnd : (nm.map Prod.fst).Nodup)
    (d : DBObject) :
    d ∈ rewritesOf im nm ↔ ∃ fnNew fnOld,
      mapGet nm d = some fnNew ∧ mapGet im d = some fnOld ∧ fnOld ≠ fnNew := by
  unfold rewritesOf
  rw [List.mem_toFinset, List.mem_filterMap]
  constructor
  · rintro ⟨⟨k, v⟩, hmem, hf⟩
    simp only at hf
    split at hf
    next fnOld hg =>
      split at hf
      next hne =>
        injection hf with hkd
        subst hkd
        exact ⟨v, fnOld, (mapGet_mem_iff hnd).mp hmem, hg, hne⟩
      next hne => exact absurd hf (by simp)
    next hg => exact absurd hf (by simp)
  · rintro ⟨fnNew, fnOld, hnew, hold, hne⟩
    refine ⟨(d, fnNew), (mapGet_mem_iff hnd).mpr hnew, ?_⟩
    simp only
    simp [hold, hne]

/-- Every element of the rewrite set computed from `fileNodeMap` snapshots is a
`Table` variant (the maps are keyed by `DBObject::Table` values only). -/
theorem rewritesOf_fileNodeMap_tables {initRows newRows : List (String × Int)}
    {d : DBObject}
    (hd : d ∈ rewritesOf (fileNodeMap initRows) (fileNodeMap newRows)) :
    ∃ t, d = DBObject.Table t := by
  unfold rewritesOf at hd
  rw [List.mem_toFinset, List.mem_filterMap] at hd
  obtain ⟨p, hp, hf⟩ := hd
  obtain ⟨r, hr, hpr⟩ := List.mem_map.mp hp
  split at hf
  next o hg =>
    split at hf
    next hne =>
      injection hf with h
      subst h
      exact ⟨⟨r.1⟩, by rw [← hpr]⟩
    next hne => exact absurd hf (by simp)
  next hg => exact absurd hf (by simp)

/-- Distinct table names yield distinct `DBObject` keys in `fileNodeMap`. -/
theorem fileNodeMap_keys_nodup {rows : List (String × Int)}
    (h : (rows.map Prod.fst).Nodup) : ((fileNodeMap rows).map Prod.fst).Nodup := by
  have heq : (fileNodeMap rows).map Prod.fst =
      (rows.map Prod.fst).map fun n => DBObject.Table ⟨n⟩ := by
    simp [fileNodeMap, List.map_map]
  rw [heq]
  refine h.map ?_
  intro a b hab
  simpa using hab

/-- The three derived fields of a successful `inspect_statement` result are exactly
the diffs of the two snapshots. -/
theorem inspect_ok_inv {snap : SnapshotEnv} {env : Nat → Finset TableObject → IterResp}
    {fuel : Nat} {r : InspectedStatement}
    (h : inspect_statement snap env fuel = .ok r) :
    r.added_objects = snap.newObjects \ snap.initialObjects ∧
    r.removed_objects = snap.initialObjects \ snap.newObjects ∧
    r.rewrites =
      rewritesOf (fileNodeMap snap.initialFileNodeRows) (fileNodeMap snap.newFileNodeRows) := by
  simp only [inspect_statement] at h
  cases hl : discoveryLoop env (allTablesOf snap.initialObjects) fuel 0 ∅ with
  | failed e => rw [hl] at h; exact absurd h (by simp)
  | running acc => rw [hl] at h; exact absurd h (by simp)
  | done locks =>
    rw [hl] at h
    injection h with h'
    rw [← h']
    exact ⟨rfl, rfl, rfl⟩

/-- C6: in every `InspectedStatement` returned by `inspect_statement`,
`added_objects` is computed as `new_objects \ initial_objects` and
`removed_objects` as `initial_objects \ new_objects` over the same two snapshots,
so the two sets are disjoint: no `DBObject` occurs in both. -/
theorem added_removed_disjoint :
    ∀ (snap : SnapshotEnv) (env : Nat → Finset TableObject → IterResp) (fuel : Nat)
      (r : InspectedStatement), inspect_statement snap env fuel = .ok r →
      r.added_objects = snap.newObjects \ snap.initialObjects ∧
      r.removed_objects = snap.initialObjects \ snap.newObjects ∧
      Disjoint r.added_objects r.removed_objects := by
  intro snap env fuel r h
  obtain ⟨ha, hr, -⟩ := inspect_ok_inv h
  refine ⟨ha, hr, ?_⟩
  rw [ha, hr]
  exact disjoint_sdiff_sdiff

/-- C6 witness: a statement that dropped `old_table` and created `new_table` yields
disjoint added/removed sets. -/
theorem added_removed_disjoint_witness :
    inspect_statement snapAddRemove envNeverBlocked 1 =
      .ok ⟨{DBObject.Table ⟨"new_table"⟩}, {DBObject.Table ⟨"old_table"⟩}, ∅, ∅⟩ ∧
    Disjoint ({DBObject.Table ⟨"new_table"⟩} : Finset DBObject)
      {DBObject.Table ⟨"old_table"⟩} := by
  have h : inspect_statement snapAddRemove envNeverBlocked 1 =
      .ok ⟨{DBObject.Table ⟨"new_table"⟩}, {DBObject.Table ⟨"old_table"⟩}, ∅, ∅⟩ := by
    decide
  exact ⟨h, (added_removed_disjoint snapAddRemove envNeverBlocked 1 _ h).2.2⟩

/-- C3: in every `InspectedStatement` returned by `inspect_statement` (with the
file-node snapshot keyed by distinct table names, as the catalog query guarantees),
`rewrites` equals exactly the set of tables that have an entry in both the initial
and the final file-node snapshot with differing file-node values; consequently every
element of `rewrites` is a `Table` variant, and a table present in only one of the
two snapshots never appears in `rewrites`. -/
theorem rewrites_exact_characterization :
    ∀ (snap : SnapshotEnv) (env : Nat → Finset TableObject → IterResp) (fuel : Nat)
      (r : InspectedStatement),
      inspect_statement snap env fuel = .ok r →
      (snap.newFileNodeRows.map Prod.fst).Nodup →
      (∀ d : DBObject,
          d ∈ r.rewrites ↔ ∃ fnNew fnOld,
            mapGet (fileNodeMap snap.newFileNodeRows) d = some fnNew ∧
            mapGet (fileNodeMap snap.initialFileNodeRows) d = some fnOld ∧
            fnOld ≠ fnNew) ∧
      (∀ d ∈ r.rewrites, ∃ t, d = DBObject.Table t) ∧
      (∀ d : DBObject,
          (mapGet (fileNodeMap snap.initialFileNodeRows) d = none ∨
           mapGet (fileNodeMap snap.newFileNodeRows) d = none) → d ∉ r.rewrites) := by
  intro snap env fuel r h hnd
  obtain ⟨-, -, hrw⟩ := inspect_ok_inv h
  have hnd' := fileNodeMap_keys_nodup hnd
  refine ⟨?_, ?_, ?_⟩
  · intro d
    rw [hrw]
    exact mem_rewritesOf hnd' d
  · intro d hd
    rw [hrw] at hd
    exact rewritesOf_fileNodeMap_tables hd
  · intro d hnone hd
    rw [hrw] at hd
    rcases (mem_rewritesOf hnd' d).mp hd with ⟨fnNew, fnOld, hN, hO, -⟩
    rcases hnone with h0 | h0
    · rw [h0] at hO
      exact Option.noConfusion hO
    · rw [h0] at hN
      exact Option.noConfusion hN

/-- C3 witness: with `customers` rewritten (file node 101 → 555) and `orders`
unchanged, the rewrite set is exactly `{Table customers}`, which is a `Table`
variant. -/
theorem rewrites_exact_characterization_witness :
    inspect_statement snapRewrite envNeverBlocked 1 =
      .ok ⟨∅, ∅, ∅, {DBObject.Table ⟨"customers"⟩}⟩ ∧
    (snapRewrite.newFileNodeRows.map Prod.fst).Nodup ∧
    ∃ t, (DBObject.Table ⟨"customers"⟩ : DBObject) = DBObject.Table t := by
  have h : inspect_statement snapRewrite envNeverBlocked 1 =
      .ok ⟨∅, ∅, ∅, {DBObject.Table ⟨"customers"⟩}⟩ := by decide
  have hnd : (snapRewrite.newFileNodeRows.map Prod.fst).Nodup := by decide
  refine ⟨h, hnd, ?_⟩
  exact (rewrites_exact_characterization snapRewrite envNeverBlocked 1 _ h hnd).2.1
    (DBObject.Table ⟨"customers"⟩) (by decide)

/-- Fuel bound for the discovery loop: under the lock-conflict protocol assumption
(every blocked iteration reports only pre-existing tables, at least one of them
among the tables just locked), the loop exits once the fuel exceeds the number of
not-yet-known tables. -/
theorem discoveryLoop_exits (env : Nat → Finset TableObject → IterResp)
    (T : Finset TableObject)
    (henv : ∀ (i : Nat) (toLock : Finset TableObject) (ls : List TableLock),
        env i toLock = .blocked (.ok ls) →
        (∀ l ∈ ls, l.table ∈ T) ∧ ∃ l ∈ ls, l.table ∈ toLock) :
    ∀ (fuel i : Nat) (acc : Finset TableLock),
      (T \ knownLockedTables acc).card < fuel →
      (discoveryLoop env T fuel i acc).isRunning = false := by
  intro fuel
  induction fuel with
  | zero => intro i acc h; omega
  | succ n ih =>
    intro i acc hcard
    cases hresp : env i (T \ knownLockedTables acc) with
    | fail e => simp [discoveryLoop, hresp, LoopOutcome.isRunning]
    | notBlocked => simp [discoveryLoop, hresp, LoopOutcome.isRunning]
    | blocked res =>
      cases res with
      | error e => simp [discoveryLoop, hresp, LoopOutcome.isRunning]
      | ok ls =>
        have hstep : discoveryLoop env T (n + 1) i acc =
            discoveryLoop env T n (i + 1) (acc ∪ ls.toFinset) := by
          simp [discoveryLoop, hresp]
        rw [hstep]
        apply ih (i + 1)
        obtain ⟨hall, l₀, hl₀m, hl₀to⟩ := henv i _ ls hresp
        have hsub : T \ knownLockedTables (acc ∪ ls.toFinset) ⊆
            T \ knownLockedTables acc := by
          apply Finset.sdiff_subset_sdiff (Finset.Subset.refl T)
          exact Finset.image_subset_image Finset.subset_union_left
        have hl₀known : l₀.table ∈ knownLockedTables (acc ∪ ls.toFinset) :=
          Finset.mem_image_of_mem _ (Finset.mem_union_right _ (List.mem_toFinset.mpr hl₀m))
        have hss : T \ knownLockedTables (acc ∪ ls.toFinset) ⊂
            T \ knownLockedTables acc :=
          (Finset.ssubset_iff_of_subset hsub).mpr
            ⟨l₀.table, hl₀to, fun hc => (Finset.mem_sdiff.mp hc).2 hl₀known⟩
        have := Finset.card_lt_card hss
        omega

/-- C2: under the lock-conflict protocol assumption — every blocked iteration of
the discovery loop reports locks only on tables of the initial snapshot, at least
one of them among the tables the iteration had just locked — each iteration that
does not exit strictly increases the set of tables appearing in `detected_locks`,
that set stays bounded by the initial tables, and the loop starting from the empty
lock set exits within `|all_tables| + 1` iterations. -/
theorem discovery_loop_terminates :
    ∀ (env : Nat → Finset TableObject → IterResp) (all_tables : Finset TableObject),
      (∀ (i : Nat) (toLock : Finset TableObject) (ls : List TableLock),
          env i toLock = .blocked (.ok ls) →
          (∀ l ∈ ls, l.table ∈ all_tables) ∧ ∃ l ∈ ls, l.table ∈ toLock) →
      (∀ (i : Nat) (acc : Finset TableLock) (ls : List TableLock),
          env i (all_tables \ knownLockedTables acc) = .blocked (.ok ls) →
          knownLockedTables acc ⊂ knownLockedTables (acc ∪ ls.toFinset) ∧
          knownLockedTables (acc ∪ ls.toFinset) ⊆ knownLockedTables acc ∪ all_tables) ∧
      (discoveryLoop env all_tables (all_tables.card + 1) 0 ∅).isRunning = false := by
  intro env T henv
  constructor
  · intro i acc ls hresp
    obtain ⟨hall, l₀, hl₀m, hl₀to⟩ := henv i _ ls hresp
    constructor
    · unfold knownLockedTables
      rw [Finset.ssubset_iff_of_subset
        (Finset.image_subset_image Finset.subset_union_left)]
      refine ⟨l₀.table,
        Finset.mem_image_of_mem _ (Finset.mem_union_right _ (List.mem_toFinset.mpr hl₀m)),
        ?_⟩
      exact (Finset.mem_sdiff.mp hl₀to).2
    · unfold knownLockedTables
      rw [Finset.image_union]
      apply Finset.union_subset_union (Finset.Subset.refl _)
      intro x hx
      obtain ⟨l, hl, hlx⟩ := Finset.mem_image.mp hx
      rw [← hlx]
      exact hall l (List.mem_toFinset.mp hl)
  · apply discoveryLoop_exits env T henv
    simp [knownLockedTables]

/-- C2 witness: in an environment that blocks (reporting an `AccessExclusiveLock`
on `customers`) exactly while `customers` is among the freshly locked tables, the
loop over the one-table schema is no longer running after `card + 1 = 2`
iterations. -/
theorem discovery_loop_terminates_witness :
    (discoveryLoop envBlockOnCustomers customersOnly (customersOnly.card + 1) 0 ∅).isRunning
      = false := by
  have henv : ∀ (i : Nat) (toLock : Finset TableObject) (ls : List TableLock),
      envBlockOnCustomers i toLock = .blocked (.ok ls) →
      (∀ l ∈ ls, l.table ∈ customersOnly) ∧ ∃ l ∈ ls, l.table ∈ toLock := by
    intro i toLock ls h
    unfold envBlockOnCustomers at h
    split at h
    next hmem =>
      injection h with h'
      injection h' with h''
      subst h''
      refine ⟨?_, ⟨⟨"customers"⟩, .AccessExclusiveLock⟩, List.mem_singleton.mpr rfl, hmem⟩
      intro l hl
      rw [List.mem_singleton.mp hl]
      simp [customersOnly]
    next => exact absurd h (by simp)
  exact (discovery_loop_terminates envBlockOnCustomers customersOnly henv).2

/-- C1 counterexample: in an environment where every iteration reports the
statement blocked yet `list_connection_locks` returns no rows — precisely the
situation the claim says must fail with `oracle_stuck` — the discovery loop does
not fail: after the very first such iteration it is still running with an unchanged
(empty) lock set, it is still running (not failed) after 25 iterations, and
`inspect_statement` likewise is still iterating rather than returning an error. -/
theorem no_stuck_error_counterexample :
    discoveryLoop envBlockedNoLocks customersOnly 1 0 ∅ = .running ∅ ∧
    discoveryLoop envBlockedNoLocks customersOnly 25 0 ∅ = .running ∅ ∧
    inspect_statement snapCustomers envBlockedNoLocks 25 = .running := by
  refine ⟨by decide, by decide, by decide⟩

/-- C1 (amended): if an iteration of the discovery loop observes no new locks
(every row `list_connection_locks` returns is already in `detected_locks`) while
`check_statement_for_locks` reported the statement blocked, `inspect_statement`
does not fail — the source defines no `oracle_stuck` error — but continues the
loop with `detected_locks` unchanged. -/
theorem loop_continues_on_no_new_locks :
    ∀ (env : Nat → Finset TableObject → IterResp) (T : Finset TableObject)
      (fuel i : Nat) (acc : Finset TableLock) (ls : List TableLock),
      env i (T \ knownLockedTables acc) = .blocked (.ok ls) →
      (∀ l ∈ ls, l ∈ acc) →
      discoveryLoop env T (fuel + 1) i acc = discoveryLoop env T fuel (i + 1) acc := by
  intro env T fuel i acc ls hresp hsub
  have hacc : acc ∪ ls.toFinset = acc := by
    rw [Finset.union_eq_left]
    intro l hl
    exact hsub l (List.mem_toFinset.mp hl)
  simp [discoveryLoop, hresp, hacc]

/-- C1 (amended) witness: the blocked-with-no-rows environment satisfies the
hypotheses at the first iteration, and the loop simply proceeds to the next
iteration with the same (empty) lock set. -/
theorem loop_continues_on_no_new_locks_witness :
    envBlockedNoLocks 0 (customersOnly \ knownLockedTables ∅) = .blocked (.ok []) ∧
    discoveryLoop envBlockedNoLocks customersOnly 1 0 ∅ =
      discoveryLoop envBlockedNoLocks customersOnly 0 1 ∅ :=
  ⟨rfl, loop_continues_on_no_new_locks envBlockedNoLocks customersOnly 0 0 ∅ [] rfl
    (by simp)⟩

end Locksmith
